import Mathlib

/-!
Verification of the data-retrieval core of the repository:
`StockDataProvider` in `src/utils/api_handler.py`, a two-tier fetch
(Alpha Vantage primary, Yahoo Finance secondary) wrapped by a disk cache
with mtime-based expiry.

The Python code is shallowly embedded. JSON values are modelled by an
inductive `Json` (numbers as rationals — no floating-point arithmetic is
performed by the code, values are only parsed and passed through). Each
external call site (filesystem primitive, HTTP request, Yahoo Finance
library interaction) is answered by an `Env` oracle, one field per call
site, so every behaviour of the external world — including failures —
is a concrete `Env` value. The fetch returns its result together with a
trace of the externally visible events it performed.
-/

/-- JSON values as produced by Python's `json.load` / consumed by
`json.dump`. Numbers (int and float) are conflated into one rational
constructor; object key order is the list order. -/
inductive Json where
  | null : Json
  | bool : Bool → Json
  | num : ℚ → Json
  | str : String → Json
  | arr : List Json → Json
  | obj : List (String × Json) → Json

/-- One trading day's observation, the canonical PricePoint of the spec:
the dict built by `_process_alpha_vantage_time_series` and by the Yahoo
history loop. `volume` is rational because the Yahoo path stores the
pandas value as-is while the primary path coerces to integer. -/
structure PricePoint where
  date : String
  opn : ℚ
  high : ℚ
  low : ℚ
  close : ℚ
  volume : ℚ
deriving DecidableEq, Repr

/-- The normalized result of a live fetch: the dict literal returned by
`_get_alpha_vantage_data` / `_get_yahoo_finance_data`. -/
structure StockRecord where
  ticker : String
  source : String
  last_updated : Json
  prices : List PricePoint
  company_info : Option Json

/-- Digits accumulated left to right; `none` when a non-digit appears. -/
def parseDigitsAux : List Char → ℕ → Option ℕ
  | [], acc => some acc
  | c :: cs, acc =>
    if c.isDigit then parseDigitsAux cs (acc * 10 + (c.toNat - 48)) else none

/-- Parse a non-empty all-digit character list. -/
def parseNatDigits (cs : List Char) : Option ℕ :=
  if cs.isEmpty then none else parseDigitsAux cs 0

/-- Split a character list at the first dot. -/
def splitOnDot : List Char → List Char × Option (List Char)
  | [] => ([], none)
  | c :: cs =>
    if c = '.' then ([], some cs)
    else
      let r := splitOnDot cs
      (c :: r.1, r.2)

/-- Unsigned decimal numeral: digits, optionally with a fractional part,
at least one digit overall (accepting forms such as `1.`, `.5`). -/
def parseUnsignedDec (cs : List Char) : Option ℚ :=
  match splitOnDot cs with
  | (ip, none) => (parseNatDigits ip).map (fun n => (n : ℚ))
  | (ip, some fp) =>
    if ip.isEmpty && fp.isEmpty then none
    else do
      let ipv ← if ip.isEmpty then some 0 else parseNatDigits ip
      let fpv ← if fp.isEmpty then some 0 else parseNatDigits fp
      some ((ipv : ℚ) + (fpv : ℚ) / ((10 : ℚ) ^ fp.length))

/-- Contract of Python `float(s)` on a string, restricted to plain signed
decimal numerals (exponent, whitespace and inf/nan forms are out of the
payload domain the claims range over); `none` models a raised
`ValueError`. -/
def parseDecimal (s : String) : Option ℚ :=
  match s.toList with
  | '-' :: cs => (parseUnsignedDec cs).map (fun q => -q)
  | '+' :: cs => parseUnsignedDec cs
  | cs => parseUnsignedDec cs

/-- Contract of Python `int(s)` on a string: a signed run of digits. -/
def parseIntStr (s : String) : Option ℤ :=
  match s.toList with
  | '-' :: cs => (parseNatDigits cs).map (fun n => -(n : ℤ))
  | '+' :: cs => (parseNatDigits cs).map (fun n => (n : ℤ))
  | cs => (parseNatDigits cs).map (fun n => (n : ℤ))

/-- Truncation toward zero, the behaviour of Python `int()` on a float. -/
def ratTruncate (q : ℚ) : ℤ :=
  if q < 0 then -((-q).floor) else q.floor

/-- Contract of Python `float(x)` on a JSON value: numbers pass through,
strings are parsed, booleans coerce, everything else raises (`none`). -/
def pyFloat : Json → Option ℚ
  | .num q => some q
  | .str s => parseDecimal s
  | .bool b => some (if b then 1 else 0)
  | _ => none

/-- Contract of Python `int(x)` on a JSON value. -/
def pyInt : Json → Option ℚ
  | .num q => some ((ratTruncate q : ℤ) : ℚ)
  | .str s => (parseIntStr s).map (fun z => (z : ℚ))
  | .bool b => some (if b then 1 else 0)
  | _ => none

/-- One entry of the Alpha Vantage daily time series: the body of the
loop in `_process_alpha_vantage_time_series`. Each field uses
`values.get(key, 0)` — missing keys default to the integer `0` — then is
coerced with `float` / `int`; a non-dict entry or a failing coercion
raises inside the provider's try block (`none`). -/
def processEntry (date : String) (v : Json) : Option PricePoint :=
  match v with
  | .obj kvs => do
    let o ← pyFloat ((List.lookup "1. open" kvs).getD (.num 0))
    let h ← pyFloat ((List.lookup "2. high" kvs).getD (.num 0))
    let l ← pyFloat ((List.lookup "3. low" kvs).getD (.num 0))
    let c ← pyFloat ((List.lookup "4. close" kvs).getD (.num 0))
    let vol ← pyInt ((List.lookup "5. volume" kvs).getD (.num 0))
    some ⟨date, o, h, l, c, vol⟩
  | _ => none

/-- Lexicographic code-point comparison of character lists: the
contract of Python string `<=`, which the sort key uses. -/
def charsLe : List Char → List Char → Bool
  | [], _ => true
  | _ :: _, [] => false
  | c :: cs, d :: ds =>
    if c.toNat < d.toNat then true
    else if d.toNat < c.toNat then false
    else charsLe cs ds

def strLe (a b : String) : Bool :=
  charsLe a.data b.data

/-- Stable descending insertion by date string: an element moves past
heads whose date is not below its own, landing after equals. -/
def insertByDateDesc (x : PricePoint) : List PricePoint → List PricePoint
  | [] => [x]
  | y :: ys =>
    if strLe x.date y.date then y :: insertByDateDesc x ys else x :: y :: ys

/-- The `prices.sort(key=lambda x: x["date"], reverse=True)` step:
a stable sort, descending by the date string. -/
def sortByDateDesc : List PricePoint → List PricePoint
  | [] => []
  | x :: xs => insertByDateDesc x (sortByDateDesc xs)

/-- `_process_alpha_vantage_time_series`: map each `(date, values)` entry
to a PricePoint (any raised coercion error aborts the whole provider
attempt, hence `Option`), then sort most-recent-first. -/
def process_alpha_vantage_time_series (ts : List (String × Json)) : Option (List PricePoint) := do
  let prices ← ts.mapM (fun dv => processEntry dv.1 dv.2)
  some (sortByDateDesc prices)

/-- Outcome of one `requests.get` call: either the call itself raised
(connection failure — `raise`), or a response arrived carrying an HTTP
status and the outcome of `.json()` on its body (which may itself
raise on malformed JSON). -/
inductive ReqOutcome where
  | raise : ReqOutcome
  | resp : ℕ → Except Unit Json → ReqOutcome

/-- One row of the Yahoo Finance history table, with the index date
already rendered by `date.strftime` as an ISO calendar-date string. -/
structure YRow where
  date : String
  opn : ℚ
  high : ℚ
  low : ℚ
  close : ℚ
  volume : ℚ

/-- Outcome of the Yahoo Finance library interaction: `raise` when
`stock.history` raises; otherwise the history rows (`[]` for an empty
table) together with the outcome of reading `stock.info` (which makes
its own remote call and may raise). -/
inductive YahooOutcome where
  | raise : YahooOutcome
  | hist : List YRow → Except Unit (List (String × Json)) → YahooOutcome

/-- One behaviour of the external world during a single fetch: the
wall-clock time, today's date string, the answers of the filesystem
primitives at each path, and the answer to each remote interaction
(each is consulted at most once per fetch). -/
structure Env where
  now : ℚ
  today : String
  pathExists : String → Bool
  mtime : String → Except Unit ℚ
  readJson : String → Except Unit Json
  writeOk : String → Bool
  avTS : ReqOutcome
  avOverview : ReqOutcome
  yahoo : YahooOutcome

/-- Configuration of `StockDataProvider` after `__init__` resolved the
environment overrides. -/
structure Provider where
  alpha_vantage_key : String
  cache_duration : ℚ
  cache_dir : String

/-- Externally visible events of one fetch, in program order:
entering a source-provider function, issuing an HTTP request to the
primary source (tagged with the `function` query parameter), the Yahoo
library network interaction, and a cache-write attempt recording the
path, the serialized value and whether the write succeeded. -/
inductive Ev where
  | avAttempt : Ev
  | avRequest : String → Ev
  | yfAttempt : Ev
  | yfRequest : Ev
  | cacheWrite : String → Json → Bool → Ev

def Ev.isPrimary : Ev → Bool
  | .avAttempt => true
  | .avRequest _ => true
  | _ => false

def Ev.isSecondary : Ev → Bool
  | .yfAttempt => true
  | .yfRequest => true
  | _ => false

def Ev.isAvRequest : Ev → Bool
  | .avRequest _ => true
  | _ => false

def Ev.isYfAttempt : Ev → Bool
  | .yfAttempt => true
  | _ => false

def Ev.isNetwork : Ev → Bool
  | .avRequest _ => true
  | .yfRequest => true
  | _ => false

def Ev.isWrite : Ev → Bool
  | .cacheWrite _ _ _ => true
  | _ => false

/-- Result of `get_stock_data`: `Except.error` marks an exception that
escaped to the caller; otherwise the optional returned dict, plus the
event trace. -/
structure FetchResult where
  result : Except Unit (Option Json)
  trace : List Ev

/-- Contract of Python `str.lower()` on the (ASCII) ticker domain:
lower-case each character. -/
def strLower (s : String) : String :=
  String.mk (s.data.map Char.toLower)

/-- Cache path computed at the top of `get_stock_data`:
`os.path.join(self.cache_dir, f"{ticker.lower()}_data.json")`. -/
def cacheFileName (ticker : String) : String :=
  strLower ticker ++ "_data.json"

def cacheFilePath (cache_dir ticker : String) : String :=
  cache_dir ++ "/" ++ cacheFileName ticker

/-- Membership test of Python's `k in data` for the error-indicator
check and the `"Symbol" in overview_data` check: key lookup on dicts,
substring test on strings, element equality on lists, `TypeError`
(`none`) on other values. -/
def charsStartWith : List Char → List Char → Bool
  | [], _ => true
  | _ :: _, [] => false
  | c :: cs, d :: ds => c == d && charsStartWith cs ds

def charsContain (needle : List Char) : List Char → Bool
  | [] => charsStartWith needle []
  | d :: ds => charsStartWith needle (d :: ds) || charsContain needle ds

def strContains (hay needle : String) : Bool :=
  charsContain needle.toList hay.toList

def pyIn (k : String) : Json → Option Bool
  | .obj kvs => some ((List.lookup k kvs).isSome)
  | .str s => some (strContains s k)
  | .arr xs => some (xs.any (fun x => match x with | .str s => s == k | _ => false))
  | _ => none

/-- The `"Error Message" in data or "Information" in data or "Note" in
data` check, on a body already known to be a JSON object. -/
def hasErrorKey (kvs : List (String × Json)) : Bool :=
  (List.lookup "Error Message" kvs).isSome
    || (List.lookup "Information" kvs).isSome
    || (List.lookup "Note" kvs).isSome

/-- `data.get("Time Series (Daily)", {})` followed by `.items()`: the
entries when the value is an object; `[]` otherwise (an absent key
yields the `{}` default, a falsy non-dict returns through the
`if not time_series` guard and a truthy non-dict raises in the items
loop — every non-object case makes the provider return `None`, which
the caller below realises through the emptiness test). -/
def tsEntries (kvs : List (String × Json)) : List (String × Json) :=
  match List.lookup "Time Series (Daily)" kvs with
  | some (.obj e) => e
  | _ => []

/-- `data.get("Meta Data", {}).get("3. Last Refreshed", "")`; `none`
models the `AttributeError` raised when `"Meta Data"` holds a
non-dict. -/
def metaLastRefreshed (kvs : List (String × Json)) : Option Json :=
  match List.lookup "Meta Data" kvs with
  | none => some (.str "")
  | some (.obj m) => some ((List.lookup "3. Last Refreshed" m).getD (.str ""))
  | some _ => none

/-- Serialization of one PricePoint dict, in its insertion order. -/
def pricePointToJson (p : PricePoint) : Json :=
  .obj [("date", .str p.date), ("open", .num p.opn), ("high", .num p.high),
        ("low", .num p.low), ("close", .num p.close), ("volume", .num p.volume)]

/-- Serialization of the returned record dict, in its insertion order;
`company_info` is present only when it was attached. -/
def recordToJson (r : StockRecord) : Json :=
  .obj ([("ticker", .str r.ticker), ("source", .str r.source),
         ("last_updated", r.last_updated),
         ("prices", .arr (r.prices.map pricePointToJson))]
    ++ (match r.company_info with
        | some ci => [("company_info", ci)]
        | none => []))

/-- `_get_alpha_vantage_data`: primary-source attempt. Returns the
record (or `None`) together with the trace of events it caused. Every
error inside the function's try block — transport raise, `.json()`
raise, error-indicator keys, empty/non-dict time series, coercion
failures, a raise while probing the overview body — funnels to `none`;
non-object response bodies collapse to `none` too (either an
error-indicator substring/member check hits, or the subsequent `.get`
call raises). The overview request is issued only after the time series
was processed successfully, and an overview transport or parse raise is
caught by the same try block, discarding the whole attempt. -/
def avAttachOverview (env : Env) (base : StockRecord) : Option StockRecord :=
  match env.avOverview with
  | .raise => none
  | .resp ovStatus ovBody =>
    if ovStatus = 200 then
      match ovBody with
      | .error _ => none
      | .ok ovd =>
        match pyIn "Symbol" ovd with
        | none => none
        | some true => some { base with company_info := some ovd }
        | some false => some base
    else some base

def get_alpha_vantage_data (p : Provider) (env : Env) (ticker : String) :
    Option StockRecord × List Ev :=
  if p.alpha_vantage_key = "" then (none, [.avAttempt])
  else
    match env.avTS with
    | .raise => (none, [.avAttempt, .avRequest "TIME_SERIES_DAILY"])
    | .resp status body =>
      if status ≠ 200 then (none, [.avAttempt, .avRequest "TIME_SERIES_DAILY"])
      else
        match body with
        | .ok (.obj kvs) =>
          if hasErrorKey kvs then (none, [.avAttempt, .avRequest "TIME_SERIES_DAILY"])
          else if (tsEntries kvs).isEmpty then
            (none, [.avAttempt, .avRequest "TIME_SERIES_DAILY"])
          else
            match metaLastRefreshed kvs,
                  process_alpha_vantage_time_series (tsEntries kvs) with
            | some lu, some prices =>
              (avAttachOverview env ⟨ticker, "alphavantage", lu, prices, none⟩,
               [.avAttempt, .avRequest "TIME_SERIES_DAILY", .avRequest "OVERVIEW"])
            | _, _ => (none, [.avAttempt, .avRequest "TIME_SERIES_DAILY"])
        | _ => (none, [.avAttempt, .avRequest "TIME_SERIES_DAILY"])

/-- Company-info dict built by `_get_yahoo_finance_data` from
`stock.info`, each field defaulting to the empty string. -/
def yahooCompanyInfo (ticker : String) (info : List (String × Json)) : Json :=
  .obj [("Symbol", .str ticker),
        ("Name", (List.lookup "shortName" info).getD (.str "")),
        ("Description", (List.lookup "longBusinessSummary" info).getD (.str "")),
        ("Exchange", (List.lookup "exchange" info).getD (.str "")),
        ("Industry", (List.lookup "industry" info).getD (.str "")),
        ("Sector", (List.lookup "sector" info).getD (.str "")),
        ("MarketCapitalization", (List.lookup "marketCap" info).getD (.str "")),
        ("PERatio", (List.lookup "trailingPE" info).getD (.str "")),
        ("DividendYield", (List.lookup "dividendYield" info).getD (.str ""))]

def yrowToPricePoint (r : YRow) : PricePoint :=
  ⟨r.date, r.opn, r.high, r.low, r.close, r.volume⟩

/-- `_get_yahoo_finance_data`: secondary-source attempt. An empty
history table, a raise from the library or from the `stock.info`
lookups all yield `none`; otherwise the rows are mapped field-for-field
in iteration order (no sort) and today's date stamps `last_updated`. -/
def get_yahoo_finance_data (env : Env) (ticker : String) :
    Option StockRecord × List Ev :=
  match env.yahoo with
  | .raise => (none, [.yfAttempt, .yfRequest])
  | .hist rows info =>
    if rows.isEmpty then (none, [.yfAttempt, .yfRequest])
    else
      match info with
      | .error _ => (none, [.yfAttempt, .yfRequest])
      | .ok i =>
        (some ⟨ticker, "yahoo", .str env.today,
               rows.map yrowToPricePoint,
               some (yahooCompanyInfo ticker i)⟩,
         [.yfAttempt, .yfRequest])

/-- The live-fetch tail of `get_stock_data`: primary attempt, failover
to secondary when the primary produced `None` (`if not data:` — the
primary's dict is never empty, so falsiness coincides with `None`),
then a best-effort cache write of the serialized record. -/
def liveFetch (p : Provider) (env : Env) (ticker cache_file : String) : FetchResult :=
  match get_alpha_vantage_data p env ticker with
  | (some rec, avtr) =>
    ⟨.ok (some (recordToJson rec)),
     avtr ++ [.cacheWrite cache_file (recordToJson rec) (env.writeOk cache_file)]⟩
  | (none, avtr) =>
    match get_yahoo_finance_data env ticker with
    | (some rec, ytr) =>
      ⟨.ok (some (recordToJson rec)),
       avtr ++ ytr ++ [.cacheWrite cache_file (recordToJson rec) (env.writeOk cache_file)]⟩
    | (none, ytr) => ⟨.ok none, avtr ++ ytr⟩

/-- `StockDataProvider.get_stock_data`: fresh-cache fast path, then live
fetch. The `os.path.getmtime` call sits outside every try block, so a
raise there (the file vanished or became unstattable between the
`os.path.exists` check and the stat) escapes to the caller — the only
such hole; a failing cache read on a fresh file is caught and falls
through to the live fetch. -/
def get_stock_data (p : Provider) (env : Env) (ticker : String) : FetchResult :=
  let cache_file := cacheFilePath p.cache_dir ticker
  if env.pathExists cache_file then
    match env.mtime cache_file with
    | .error e => ⟨.error e, []⟩
    | .ok m =>
      if env.now - m < p.cache_duration then
        match env.readJson cache_file with
        | .ok j => ⟨.ok (some j), []⟩
        | .error _ => liveFetch p env ticker cache_file
      else liveFetch p env ticker cache_file
  else liveFetch p env ticker cache_file

/-- Content of the file at `path` after the traced events ran against a
file previously holding `pre` (`none` = no file): each successful write
event replaces it; failed writes leave at most a corrupt remnant, which
no claim inspects, so they are not modelled as content. -/
def cacheAfter (path : String) (pre : Option Json) : List Ev → Option Json
  | [] => pre
  | .cacheWrite q j ok :: rest =>
    cacheAfter path (if ok && q == path then some j else pre) rest
  | _ :: rest => cacheAfter path pre rest

/-- True when the fetch returned normally (no escaped exception). -/
def FetchResult.isOkRes (r : FetchResult) : Bool :=
  match r.result with
  | .ok _ => true
  | .error _ => false

/-- True when the fetch returned a record to the caller. -/
def FetchResult.succeeded (r : FetchResult) : Bool :=
  match r.result with
  | .ok (some _) => true
  | _ => false

/-- The live-fetch path is taken: the cache file is absent, or stale,
or fresh but unreadable. -/
def takesLivePath (p : Provider) (env : Env) (ticker : String) : Prop :=
  let cf := cacheFilePath p.cache_dir ticker
  env.pathExists cf = false
    ∨ (∃ m, env.mtime cf = .ok m ∧
        (p.cache_duration ≤ env.now - m ∨ env.readJson cf = .error ()))

/-- The claim's hypothesis for C2/C6/C7: cache file absent or stale. -/
def cacheAbsentOrStale (p : Provider) (env : Env) (ticker : String) : Prop :=
  let cf := cacheFilePath p.cache_dir ticker
  env.pathExists cf = false
    ∨ (∃ m, env.mtime cf = .ok m ∧ p.cache_duration ≤ env.now - m)

def Ev.isAvAttempt : Ev → Bool
  | .avAttempt => true
  | _ => false

/-- Descending-by-date ordering relation on price points. -/
def descByDate (a b : PricePoint) : Prop := strLe b.date a.date = true

instance : DecidableRel descByDate :=
  fun a b => inferInstanceAs (Decidable (strLe b.date a.date = true))

/-- No secondary-source event occurs before a primary-source event. -/
def noSecondaryBeforePrimary (tr : List Ev) : Prop :=
  List.Pairwise (fun a b => ¬(a.isSecondary = true ∧ b.isPrimary = true)) tr

/-- Price list of an optional record (`[]` when absent). -/
def recPrices : Option StockRecord → List PricePoint
  | some r => r.prices
  | none => []

def exceptIsOk : Except Unit ℚ → Bool
  | .ok _ => true
  | .error _ => false

/-- A character that is safe inside a single filesystem name component. -/
def fsSafeChar (c : Char) : Bool :=
  c != '/' && c.toNat != 0

/-- A string usable as one filesystem name component: non-empty, no path
separator, no NUL. -/
def fsSafeName (s : String) : Bool :=
  !s.toList.isEmpty && s.toList.all fsSafeChar

/-- A well-formed Alpha Vantage daily entry used by the concrete
environments below. -/
def avEntry (o h l c v : String) : Json :=
  .obj [("1. open", .str o), ("2. high", .str h), ("3. low", .str l),
        ("4. close", .str c), ("5. volume", .str v)]

/-- A successful primary time-series body with entries for 2024-01-02
and 2024-01-03 (payload iteration order ascending). -/
def avGoodBody : Json :=
  .obj [("Meta Data", .obj [("3. Last Refreshed", .str "2024-01-03")]),
        ("Time Series (Daily)", .obj
          [("2024-01-02", avEntry "10" "12" "9" "11" "100"),
           ("2024-01-03", avEntry "11" "13" "10" "12" "200")])]

def yrow0102 : YRow := ⟨"2024-01-02", 10, 12, 9, 11, 100⟩
def yrow0103 : YRow := ⟨"2024-01-03", 11, 13, 10, 12, 200⟩

def provK : Provider := ⟨"demo-key", 3600, "./data/cache"⟩
def provNoKey : Provider := ⟨"", 3600, "./data/cache"⟩

/-- Fresh cache file holding the JSON text `"cached"`, ten seconds old. -/
def envFresh : Env :=
  { now := 100, today := "2024-01-04",
    pathExists := fun _ => true,
    mtime := fun _ => .ok 90,
    readJson := fun _ => .ok (.str "cached"),
    writeOk := fun _ => false,
    avTS := .raise, avOverview := .raise, yahoo := .raise }

/-- Stale cache (one day old), primary source succeeds, overview request
answered with status 500, cache write succeeds. -/
def envStaleAv : Env :=
  { now := 86400, today := "2024-01-04",
    pathExists := fun _ => true,
    mtime := fun _ => .ok 0,
    readJson := fun _ => .error (),
    writeOk := fun _ => true,
    avTS := .resp 200 (.ok avGoodBody),
    avOverview := .resp 500 (.ok .null),
    yahoo := .raise }

/-- No cache file; Yahoo Finance answers with a two-row history in the
source's (ascending) iteration order. -/
def envYAsc : Env :=
  { now := 100, today := "2024-01-04",
    pathExists := fun _ => false,
    mtime := fun _ => .error (),
    readJson := fun _ => .error (),
    writeOk := fun _ => true,
    avTS := .raise, avOverview := .raise,
    yahoo := .hist [yrow0102, yrow0103] (.ok []) }

/-- No cache file; the primary answers 200 with a rate-limit `Note`
body; Yahoo Finance has data. -/
def envErrNote : Env :=
  { envYAsc with
    avTS := .resp 200 (.ok (.obj [("Note", .str "API call frequency exceeded")])),
    avOverview := .raise }

/-- Existing cache file whose modification-time query raises. -/
def envMtimeRaise : Env :=
  { envFresh with mtime := fun _ => .error () }

/-- No cache file and both sources fail. -/
def envBothFail : Env :=
  { now := 100, today := "2024-01-04",
    pathExists := fun _ => false,
    mtime := fun _ => .error (),
    readJson := fun _ => .error (),
    writeOk := fun _ => true,
    avTS := .raise, avOverview := .raise, yahoo := .raise }

/-- No cache file, successful primary fetch, but the cache write fails. -/
def envWriteFail : Env :=
  { envStaleAv with
    pathExists := fun _ => false,
    writeOk := fun _ => false }

/-- The two time-series entries of `avGoodBody`, in payload order. -/
def avTsEx : List (String × Json) :=
  [("2024-01-02", avEntry "10" "12" "9" "11" "100"),
   ("2024-01-03", avEntry "11" "13" "10" "12" "200")]

/-- The normalized price points of `avTsEx`, most recent first. -/
def avPricesEx : List PricePoint :=
  [⟨"2024-01-03", 11, 13, 10, 12, 200⟩, ⟨"2024-01-02", 10, 12, 9, 11, 100⟩]

/-- The record produced by the primary source under `envStaleAv`. -/
def avRecStale : StockRecord :=
  ⟨"AAPL", "alphavantage", .str "2024-01-03", avPricesEx, none⟩

/-- The record produced by the secondary source under `envYAsc`. -/
def yRecEx : StockRecord :=
  ⟨"MSFT", "yahoo", .str "2024-01-04",
   [yrowToPricePoint yrow0102, yrowToPricePoint yrow0103],
   some (yahooCompanyInfo "MSFT" [])⟩

theorem yf_trace_eq (env : Env) (t : String) :
    (get_yahoo_finance_data env t).2 = [.yfAttempt, .yfRequest] := by
  unfold get_yahoo_finance_data
  repeat' split
  all_goals rfl

theorem av_trace_shape (p : Provider) (env : Env) (t : String) :
    (get_alpha_vantage_data p env t).2 = [.avAttempt]
    ∨ (get_alpha_vantage_data p env t).2 = [.avAttempt, .avRequest "TIME_SERIES_DAILY"]
    ∨ (get_alpha_vantage_data p env t).2
        = [.avAttempt, .avRequest "TIME_SERIES_DAILY", .avRequest "OVERVIEW"] := by
  unfold get_alpha_vantage_data
  repeat' split
  all_goals simp

theorem av_trace_primary (p : Provider) (env : Env) (t : String) :
    ∀ e ∈ (get_alpha_vantage_data p env t).2, e.isPrimary = true := by
  rcases av_trace_shape p env t with h | h | h <;> rw [h] <;> decide

theorem live_of_absentOrStale (p : Provider) (env : Env) (t : String)
    (h : cacheAbsentOrStale p env t) :
    get_stock_data p env t = liveFetch p env t (cacheFilePath p.cache_dir t) := by
  unfold get_stock_data
  rcases h with h | ⟨m, hm, hst⟩
  · simp [h]
  · cases hpe : env.pathExists (cacheFilePath p.cache_dir t)
    · simp [hpe]
    · simp [hpe, hm, not_lt.mpr hst]

theorem live_of_takesLivePath (p : Provider) (env : Env) (t : String)
    (h : takesLivePath p env t) :
    get_stock_data p env t = liveFetch p env t (cacheFilePath p.cache_dir t) := by
  unfold get_stock_data
  rcases h with h | ⟨m, hm, hst | hrd⟩
  · simp [h]
  · cases hpe : env.pathExists (cacheFilePath p.cache_dir t)
    · simp [hpe]
    · simp [hpe, hm, not_lt.mpr hst]
  · cases hpe : env.pathExists (cacheFilePath p.cache_dir t)
    · simp [hpe]
    · by_cases hf : env.now - m < p.cache_duration
      · simp [hpe, hm, hf, hrd]
      · simp [hpe, hm, hf]

/-- C1: for a ticker whose cache file exists, is fresh (age below the
configured duration) and deserializes to `j`, the fetch returns exactly
`j` and performs no external event at all — no primary or secondary
network call, no re-validation, no write. -/
theorem C1_fresh_cache_returns_cached (p : Provider) (env : Env) (ticker : String)
    (m : ℚ) (j : Json)
    (hex : env.pathExists (cacheFilePath p.cache_dir ticker) = true)
    (hm : env.mtime (cacheFilePath p.cache_dir ticker) = .ok m)
    (hfresh : env.now - m < p.cache_duration)
    (hread : env.readJson (cacheFilePath p.cache_dir ticker) = .ok j) :
    (get_stock_data p env ticker).result = .ok (some j)
      ∧ (get_stock_data p env ticker).trace = [] := by
  unfold get_stock_data
  simp [hex, hm, hfresh, hread]

theorem C1_witness :
    (envFresh.pathExists (cacheFilePath provK.cache_dir "AAPL") = true
      ∧ envFresh.mtime (cacheFilePath provK.cache_dir "AAPL") = .ok 90
      ∧ envFresh.now - 90 < provK.cache_duration
      ∧ envFresh.readJson (cacheFilePath provK.cache_dir "AAPL") = .ok (.str "cached"))
    ∧ ((get_stock_data provK envFresh "AAPL").result = .ok (some (.str "cached"))
      ∧ (get_stock_data provK envFresh "AAPL").trace = []) :=
  ⟨⟨rfl, rfl, by norm_num [envFresh, provK], rfl⟩,
   C1_fresh_cache_returns_cached provK envFresh "AAPL" 90 (.str "cached")
     rfl rfl (by norm_num [envFresh, provK]) rfl⟩

theorem prim_not_sec (e : Ev) (h : e.isPrimary = true) : e.isSecondary = false := by
  cases e <;> simp_all [Ev.isPrimary, Ev.isSecondary]

theorem noSecBeforePrim_append (l₁ l₂ : List Ev)
    (h₁ : ∀ e ∈ l₁, e.isSecondary = false)
    (h₂ : ∀ e ∈ l₂, e.isPrimary = false) :
    noSecondaryBeforePrimary (l₁ ++ l₂) := by
  induction l₁ with
  | nil =>
    simp only [List.nil_append]
    induction l₂ with
    | nil => exact List.Pairwise.nil
    | cons a l ih =>
      refine List.Pairwise.cons (fun b hb hc => ?_)
        (ih (fun e he => h₂ e (List.mem_cons_of_mem a he)))
      exact absurd hc.2 (by simp [h₂ b (List.mem_cons_of_mem a hb)])
  | cons a l ih =>
    refine List.Pairwise.cons (fun b hb hc => ?_)
      (ih (fun e he => h₁ e (List.mem_cons_of_mem a he)))
    exact absurd hc.1 (by simp [h₁ a (List.mem_cons_self a l)])

theorem liveFetch_isOk (p : Provider) (env : Env) (t cf : String) :
    (liveFetch p env t cf).isOkRes = true := by
  unfold liveFetch
  repeat' split
  all_goals rfl

/-- C2: on a cache miss (absent or stale file), the primary source is
attempted, no secondary-source event precedes a primary-source event in
the trace, and a secondary-source event occurs exactly when the primary
attempt produced no record. -/
theorem C2_primary_before_secondary (p : Provider) (env : Env) (t : String)
    (h : cacheAbsentOrStale p env t) :
    (get_stock_data p env t).trace.any Ev.isAvAttempt = true
    ∧ noSecondaryBeforePrimary (get_stock_data p env t).trace
    ∧ ((get_stock_data p env t).trace.any Ev.isSecondary = true
        ↔ (get_alpha_vantage_data p env t).1 = none) := by
  rw [live_of_absentOrStale p env t h]
  rcases hav : get_alpha_vantage_data p env t with ⟨av1, avtr⟩
  have havtr : ∀ e ∈ avtr, e.isPrimary = true := by
    have hh := av_trace_primary p env t
    rw [hav] at hh
    exact hh
  have hshape : avtr = [.avAttempt]
      ∨ avtr = [.avAttempt, .avRequest "TIME_SERIES_DAILY"]
      ∨ avtr = [.avAttempt, .avRequest "TIME_SERIES_DAILY", .avRequest "OVERVIEW"] := by
    have hh := av_trace_shape p env t
    rw [hav] at hh
    exact hh
  cases av1 with
  | some rec =>
    refine ⟨?_, ?_, ?_⟩
    · rcases hshape with hs | hs | hs <;>
        simp [liveFetch, hav, hs, List.any_append, Ev.isAvAttempt]
    · simp only [liveFetch, hav]
      exact noSecBeforePrim_append avtr _
        (fun e he => prim_not_sec e (havtr e he))
        (fun e he => by
          simp only [List.mem_singleton] at he
          simp [he, Ev.isPrimary])
    · simp only [liveFetch, hav]
      constructor
      · intro hany
        exfalso
        rw [List.any_append] at hany
        rcases Bool.or_eq_true_iff.mp hany with hx | hx
        · rcases List.any_eq_true.mp hx with ⟨e, he, hsec⟩
          rw [prim_not_sec e (havtr e he)] at hsec
          exact Bool.false_ne_true hsec
        · rcases List.any_eq_true.mp hx with ⟨e, he, hsec⟩
          simp only [List.mem_singleton] at he
          subst he
          simp [Ev.isSecondary] at hsec
      · intro hc
        exact absurd hc (by simp)
  | none =>
    rcases hy : get_yahoo_finance_data env t with ⟨y1, ytr⟩
    have hytr : ytr = [.yfAttempt, .yfRequest] := by
      have hh := yf_trace_eq env t
      rw [hy] at hh
      exact hh
    subst hytr
    refine ⟨?_, ?_, ?_⟩
    · rcases hshape with hs | hs | hs <;>
        cases y1 <;>
        simp [liveFetch, hav, hy, hs, List.any_append, Ev.isAvAttempt]
    · have hrest : ∀ l₂ : List Ev,
          (∀ e ∈ l₂, e.isPrimary = false) →
          noSecondaryBeforePrimary (avtr ++ l₂) :=
        fun l₂ hl₂ => noSecBeforePrim_append avtr l₂
          (fun e he => prim_not_sec e (havtr e he)) hl₂
      cases y1 with
      | some rec =>
        have : (liveFetch p env t (cacheFilePath p.cache_dir t)).trace
            = avtr ++ ([.yfAttempt, .yfRequest]
                ++ [.cacheWrite (cacheFilePath p.cache_dir t) (recordToJson rec)
                      (env.writeOk (cacheFilePath p.cache_dir t))]) := by
          simp [liveFetch, hav, hy]
        rw [this]
        exact hrest _ (by simp [Ev.isPrimary])
      | none =>
        have : (liveFetch p env t (cacheFilePath p.cache_dir t)).trace
            = avtr ++ [.yfAttempt, .yfRequest] := by
          simp [liveFetch, hav, hy]
        rw [this]
        exact hrest _ (by simp [Ev.isPrimary])
    · cases y1 <;>
        simp [liveFetch, hav, hy, List.any_append, Ev.isSecondary]

theorem C2_witness :
    cacheAbsentOrStale provK envStaleAv "AAPL"
    ∧ ((get_stock_data provK envStaleAv "AAPL").trace.any Ev.isAvAttempt = true
      ∧ noSecondaryBeforePrimary (get_stock_data provK envStaleAv "AAPL").trace
      ∧ ((get_stock_data provK envStaleAv "AAPL").trace.any Ev.isSecondary = true
          ↔ (get_alpha_vantage_data provK envStaleAv "AAPL").1 = none)) := by
  have h : cacheAbsentOrStale provK envStaleAv "AAPL" :=
    Or.inr ⟨0, rfl, by norm_num [envStaleAv, provK]⟩
  exact ⟨h, C2_primary_before_secondary provK envStaleAv "AAPL" h⟩

/-- C7: with no primary API key configured, a fetch on a cache miss
issues no primary-source HTTP request at all and the secondary source is
attempted. -/
theorem C7_no_key_skips_primary (p : Provider) (env : Env) (t : String)
    (hkey : p.alpha_vantage_key = "") (h : cacheAbsentOrStale p env t) :
    (get_stock_data p env t).trace.any Ev.isAvRequest = false
    ∧ (get_stock_data p env t).trace.any Ev.isYfAttempt = true := by
  rw [live_of_absentOrStale p env t h]
  have hav : get_alpha_vantage_data p env t = (none, [.avAttempt]) := by
    unfold get_alpha_vantage_data
    simp [hkey]
  rcases hy : get_yahoo_finance_data env t with ⟨y1, ytr⟩
  have hytr : ytr = [.yfAttempt, .yfRequest] := by
    have hh := yf_trace_eq env t
    rw [hy] at hh
    exact hh
  subst hytr
  cases y1 <;>
    simp [liveFetch, hav, hy, List.any_append, Ev.isAvRequest, Ev.isYfAttempt]

theorem C7_witness :
    (provNoKey.alpha_vantage_key = "" ∧ cacheAbsentOrStale provNoKey envYAsc "AAPL")
    ∧ ((get_stock_data provNoKey envYAsc "AAPL").trace.any Ev.isAvRequest = false
      ∧ (get_stock_data provNoKey envYAsc "AAPL").trace.any Ev.isYfAttempt = true) :=
  ⟨⟨rfl, Or.inl rfl⟩,
   C7_no_key_skips_primary provNoKey envYAsc "AAPL" rfl (Or.inl rfl)⟩

theorem prim_not_write (e : Ev) (h : e.isPrimary = true) : e.isWrite = false := by
  cases e <;> simp_all [Ev.isPrimary, Ev.isWrite]

theorem cacheAfter_no_writes (path : String) (pre : Option Json) (tr : List Ev)
    (h : ∀ e ∈ tr, e.isWrite = false) : cacheAfter path pre tr = pre := by
  induction tr with
  | nil => rfl
  | cons e rest ih =>
    cases e with
    | cacheWrite q j ok =>
      exact absurd (h _ (List.mem_cons_self _ _)) (by simp [Ev.isWrite])
    | avAttempt => exact ih (fun e he => h e (List.mem_cons_of_mem _ he))
    | avRequest f => exact ih (fun e he => h e (List.mem_cons_of_mem _ he))
    | yfAttempt => exact ih (fun e he => h e (List.mem_cons_of_mem _ he))
    | yfRequest => exact ih (fun e he => h e (List.mem_cons_of_mem _ he))

/-- C4: when the live-fetch path is taken and both sources fail, the
fetch returns absent, performs no cache-write attempt at all, and every
file's content is left untouched. -/
theorem C4_both_fail_cache_untouched (p : Provider) (env : Env) (t : String)
    (h : takesLivePath p env t)
    (ha : (get_alpha_vantage_data p env t).1 = none)
    (hy : (get_yahoo_finance_data env t).1 = none) :
    (get_stock_data p env t).result = .ok none
    ∧ (get_stock_data p env t).trace.all (fun e => !e.isWrite) = true
    ∧ ∀ path pre, cacheAfter path pre (get_stock_data p env t).trace = pre := by
  rw [live_of_takesLivePath p env t h]
  rcases hav : get_alpha_vantage_data p env t with ⟨av1, avtr⟩
  rw [hav] at ha
  simp only at ha
  subst ha
  rcases hyy : get_yahoo_finance_data env t with ⟨y1, ytr⟩
  rw [hyy] at hy
  simp only at hy
  subst hy
  have hytr : ytr = [.yfAttempt, .yfRequest] := by
    have hh := yf_trace_eq env t
    rw [hyy] at hh
    exact hh
  subst hytr
  have hprim : ∀ e ∈ avtr, e.isPrimary = true := by
    have hh := av_trace_primary p env t
    rw [hav] at hh
    exact hh
  have hnw : ∀ e ∈ avtr ++ [Ev.yfAttempt, Ev.yfRequest], e.isWrite = false := by
    intro e he
    rcases List.mem_append.mp he with hx | hx
    · exact prim_not_write e (hprim e hx)
    · simp only [List.mem_cons, List.mem_singleton] at hx
      rcases hx with h1 | h1 | h1
      · subst h1
        rfl
      · subst h1
        rfl
      · exact absurd h1 (List.not_mem_nil e)
  refine ⟨?_, ?_, ?_⟩
  · simp [liveFetch, hav, hyy]
  · have : (liveFetch p env t (cacheFilePath p.cache_dir t)).trace
        = avtr ++ [Ev.yfAttempt, Ev.yfRequest] := by
      simp [liveFetch, hav, hyy]
    rw [this, List.all_eq_true]
    intro e he
    simp [hnw e he]
  · intro path pre
    have : (liveFetch p env t (cacheFilePath p.cache_dir t)).trace
        = avtr ++ [Ev.yfAttempt, Ev.yfRequest] := by
      simp [liveFetch, hav, hyy]
    rw [this]
    exact cacheAfter_no_writes path pre _ hnw

theorem C4_witness :
    (takesLivePath provK envBothFail "AAPL"
      ∧ (get_alpha_vantage_data provK envBothFail "AAPL").1 = none
      ∧ (get_yahoo_finance_data envBothFail "AAPL").1 = none)
    ∧ ((get_stock_data provK envBothFail "AAPL").result = .ok none
      ∧ (get_stock_data provK envBothFail "AAPL").trace.all (fun e => !e.isWrite) = true
      ∧ cacheAfter (cacheFilePath provK.cache_dir "AAPL") (some (.str "old"))
          (get_stock_data provK envBothFail "AAPL").trace = some (.str "old")) := by
  have h := C4_both_fail_cache_untouched provK envBothFail "AAPL" (Or.inl rfl) rfl rfl
  exact ⟨⟨Or.inl rfl, rfl, rfl⟩,
         h.1, h.2.1, h.2.2 (cacheFilePath provK.cache_dir "AAPL") (some (.str "old"))⟩

/-- C5 (amended): no exception escapes the fetch, except in one spot:
the modification-time query on an existing cache file sits outside
every handler, so if it raises, the exception reaches the caller. When
it does not raise (or the file does not exist), every transport,
parsing, cache-read and cache-write error is caught and converted to
failover or an absent result. -/
theorem C5_no_escape_except_mtime (p : Provider) (env : Env) (t : String)
    (h : env.pathExists (cacheFilePath p.cache_dir t) = true →
         exceptIsOk (env.mtime (cacheFilePath p.cache_dir t)) = true) :
    (get_stock_data p env t).isOkRes = true := by
  unfold get_stock_data
  cases hpe : env.pathExists (cacheFilePath p.cache_dir t) with
  | false =>
    simp only [hpe, Bool.false_eq_true, if_false]
    exact liveFetch_isOk p env t _
  | true =>
    have hok := h hpe
    cases hm : env.mtime (cacheFilePath p.cache_dir t) with
    | error e =>
      rw [hm] at hok
      simp [exceptIsOk] at hok
    | ok m =>
      simp only [hpe, if_true]
      rw [hm]
      by_cases hf : env.now - m < p.cache_duration
      · simp only [hf, if_true]
        cases hr : env.readJson (cacheFilePath p.cache_dir t) with
        | ok j => rfl
        | error e => exact liveFetch_isOk p env t _
      · simp only [hf, if_false]
        exact liveFetch_isOk p env t _

/-- C5 counterexample: a behaviour of the filesystem under which the
fetch raises to its caller — the cache file exists but the
modification-time query fails (the file vanished or became unstattable
between the existence check and the stat, or the stat itself errors),
and `os.path.getmtime` is outside every try block. -/
theorem C5_counterexample_mtime_raises :
    (get_stock_data provK envMtimeRaise "AAPL").isOkRes = false := rfl

theorem C5_witness :
    (envFresh.pathExists (cacheFilePath provK.cache_dir "MSFT") = true →
      exceptIsOk (envFresh.mtime (cacheFilePath provK.cache_dir "MSFT")) = true)
    ∧ (get_stock_data provK envFresh "MSFT").isOkRes = true :=
  ⟨fun _ => rfl, C5_no_escape_except_mtime provK envFresh "MSFT" (fun _ => rfl)⟩

/-- C6: a primary response with HTTP status 200 whose JSON body carries
one of the error-indicator keys, or whose time-series payload is empty,
counts as a primary failure — the attempt yields no record, no
exception escapes, and the fetch proceeds to the secondary source. -/
theorem C6_error_body_counts_as_failure (p : Provider) (env : Env) (t : String)
    (kvs : List (String × Json))
    (h : cacheAbsentOrStale p env t)
    (hts : env.avTS = .resp 200 (.ok (.obj kvs)))
    (herr : hasErrorKey kvs = true ∨ tsEntries kvs = []) :
    (get_alpha_vantage_data p env t).1 = none
    ∧ (get_stock_data p env t).isOkRes = true
    ∧ (get_stock_data p env t).trace.any Ev.isYfAttempt = true := by
  have hav1 : (get_alpha_vantage_data p env t).1 = none := by
    unfold get_alpha_vantage_data
    by_cases hk : p.alpha_vantage_key = ""
    · simp [hk]
    · rcases herr with he | he
      · simp [hk, hts, he]
      · by_cases hek : hasErrorKey kvs <;> simp [hk, hts, he, hek]
  refine ⟨hav1, ?_, ?_⟩
  · rw [live_of_absentOrStale p env t h]
    exact liveFetch_isOk p env t _
  · rw [live_of_absentOrStale p env t h]
    rcases hav : get_alpha_vantage_data p env t with ⟨av1, avtr⟩
    rw [hav] at hav1
    simp only at hav1
    subst hav1
    rcases hy : get_yahoo_finance_data env t with ⟨y1, ytr⟩
    have hytr : ytr = [.yfAttempt, .yfRequest] := by
      have hh := yf_trace_eq env t
      rw [hy] at hh
      exact hh
    subst hytr
    cases y1 <;> simp [liveFetch, hav, hy, List.any_append, Ev.isYfAttempt]

theorem C6_witness :
    (cacheAbsentOrStale provK envErrNote "AAPL"
      ∧ envErrNote.avTS
          = .resp 200 (.ok (.obj [("Note", .str "API call frequency exceeded")]))
      ∧ hasErrorKey [("Note", .str "API call frequency exceeded")] = true)
    ∧ ((get_alpha_vantage_data provK envErrNote "AAPL").1 = none
      ∧ (get_stock_data provK envErrNote "AAPL").isOkRes = true
      ∧ (get_stock_data provK envErrNote "AAPL").trace.any Ev.isYfAttempt = true) :=
  ⟨⟨Or.inl rfl, rfl, rfl⟩,
   C6_error_body_counts_as_failure provK envErrNote "AAPL"
     [("Note", .str "API call frequency exceeded")]
     (Or.inl rfl) rfl (Or.inl rfl)⟩

theorem charsLe_total (a : List Char) : ∀ b, charsLe a b = false → charsLe b a = true := by
  induction a with
  | nil => intro b h; simp [charsLe] at h
  | cons x xs ih =>
    intro b h
    cases b with
    | nil => rfl
    | cons y ys =>
      simp only [charsLe] at h ⊢
      by_cases hxy : x.toNat < y.toNat
      · simp [hxy] at h
      · by_cases hyx : y.toNat < x.toNat
        · simp [hyx]
        · simp only [hxy, if_false, hyx, if_false] at h ⊢
          exact ih ys h

theorem charsLe_trans (a : List Char) :
    ∀ b c, charsLe a b = true → charsLe b c = true → charsLe a c = true := by
  induction a with
  | nil => intro b c _ _; rfl
  | cons x xs ih =>
    intro b c h1 h2
    cases b with
    | nil => simp [charsLe] at h1
    | cons y ys =>
      cases c with
      | nil => simp [charsLe] at h2
      | cons z zs =>
        simp only [charsLe] at h1 h2 ⊢
        by_cases hxy : x.toNat < y.toNat
        · by_cases hyz : y.toNat < z.toNat
          · simp [Nat.lt_trans hxy hyz]
          · by_cases hzy : z.toNat < y.toNat
            · simp [hyz, hzy] at h2
            · have hyz' : y.toNat = z.toNat := Nat.le_antisymm (Nat.le_of_not_lt hzy) (Nat.le_of_not_lt hyz)
              simp [hyz' ▸ hxy]
        · by_cases hyx : y.toNat < x.toNat
          · simp [hxy, hyx] at h1
          · have hxy' : x.toNat = y.toNat := Nat.le_antisymm (Nat.le_of_not_lt hyx) (Nat.le_of_not_lt hxy)
            simp only [hxy, if_false, hyx, if_false] at h1
            by_cases hyz : y.toNat < z.toNat
            · simp [hxy' ▸ hyz]
            · by_cases hzy : z.toNat < y.toNat
              · simp [hyz, hzy] at h2
              · simp only [hyz, if_false, hzy, if_false] at h2
                have hxz : ¬ x.toNat < z.toNat := by omega
                have hzx : ¬ z.toNat < x.toNat := by omega
                simp only [hxz, if_false, hzx, if_false]
                exact ih ys zs h1 h2

theorem strLe_total (a b : String) (h : strLe a b = false) : strLe b a = true :=
  charsLe_total a.data b.data h

theorem strLe_trans (a b c : String) (h1 : strLe a b = true) (h2 : strLe b c = true) :
    strLe a c = true :=
  charsLe_trans a.data b.data c.data h1 h2

theorem mem_insertByDateDesc (x b : PricePoint) (l : List PricePoint) :
    b ∈ insertByDateDesc x l ↔ b = x ∨ b ∈ l := by
  induction l with
  | nil => simp [insertByDateDesc]
  | cons y ys ih =>
    by_cases hxy : strLe x.date y.date = true
    · simp only [insertByDateDesc, if_pos hxy, List.mem_cons, ih]
      tauto
    · simp only [insertByDateDesc, if_neg hxy, List.mem_cons]

theorem pairwise_insertByDateDesc (x : PricePoint) (l : List PricePoint)
    (h : List.Pairwise descByDate l) :
    List.Pairwise descByDate (insertByDateDesc x l) := by
  induction l with
  | nil => simp [insertByDateDesc, List.pairwise_singleton]
  | cons y ys ih =>
    rcases List.pairwise_cons.mp h with ⟨hy, hys⟩
    by_cases hxy : strLe x.date y.date = true
    · simp only [insertByDateDesc, if_pos hxy]
      refine List.pairwise_cons.mpr ⟨?_, ih hys⟩
      intro b hb
      rcases (mem_insertByDateDesc x b ys).mp hb with hb | hb
      · subst hb
        exact hxy
      · exact hy b hb
    · simp only [insertByDateDesc, if_neg hxy]
      have hyx : strLe y.date x.date = true :=
        strLe_total x.date y.date (Bool.not_eq_true _ ▸ hxy)
      refine List.pairwise_cons.mpr ⟨?_, h⟩
      intro b hb
      rcases List.mem_cons.mp hb with hb | hb
      · subst hb
        exact hyx
      · exact strLe_trans b.date y.date x.date (hy b hb) hyx

theorem pairwise_sortByDateDesc (l : List PricePoint) :
    List.Pairwise descByDate (sortByDateDesc l) := by
  induction l with
  | nil => exact List.Pairwise.nil
  | cons x xs ih => exact pairwise_insertByDateDesc x _ ih

/-- C3 (amended): price points normalized from the primary time series
are sorted descending by date (so "2024-01-03" precedes "2024-01-02"),
but a record from the secondary source keeps the source's row iteration
order — the code sorts only the primary-sourced sequence. -/
theorem C3_primary_sorted_secondary_iteration_order :
    (∀ ts prices, process_alpha_vantage_time_series ts = some prices →
        List.Pairwise descByDate prices)
    ∧ (∀ env t rec, (get_yahoo_finance_data env t).1 = some rec →
        ∃ rows info, env.yahoo = .hist rows info
          ∧ rec.prices = rows.map yrowToPricePoint) := by
  constructor
  · intro ts prices h
    unfold process_alpha_vantage_time_series at h
    cases hm : ts.mapM (fun dv => processEntry dv.1 dv.2) with
    | none =>
      rw [hm] at h
      simp at h
    | some l =>
      rw [hm] at h
      have h2 : some (sortByDateDesc l) = some prices := h
      have h3 : sortByDateDesc l = prices := Option.some_injective _ h2
      rw [← h3]
      exact pairwise_sortByDateDesc l
  · intro env t rec h
    unfold get_yahoo_finance_data at h
    cases hy : env.yahoo with
    | raise =>
      rw [hy] at h
      simp at h
    | hist rows info =>
      rw [hy] at h
      by_cases hr : rows.isEmpty
      · simp [hr] at h
      · cases info with
        | error e =>
          simp only [hr, Bool.false_eq_true, if_false] at h
          simp at h
        | ok i =>
          simp only [hr, Bool.false_eq_true, if_false, Option.some.injEq] at h
          exact ⟨rows, .ok i, rfl, by rw [← h]⟩

/-- C3 counterexample (the claim as stated): under a secondary-source
behaviour whose history rows arrive oldest-first — the iteration order
of the Yahoo Finance history table — the produced record's price
sequence is not sorted descending by date: the point for "2024-01-02"
precedes the one for "2024-01-03". -/
theorem C3_counterexample_secondary_unsorted :
    ((get_yahoo_finance_data envYAsc "AAPL").1).isSome = true
    ∧ ¬ List.Pairwise descByDate
        (recPrices (get_yahoo_finance_data envYAsc "AAPL").1) := by
  refine ⟨rfl, ?_⟩
  have hpr : recPrices (get_yahoo_finance_data envYAsc "AAPL").1
      = [yrowToPricePoint yrow0102, yrowToPricePoint yrow0103] := rfl
  rw [hpr]
  intro hp
  rcases List.pairwise_cons.mp hp with ⟨hcond, _⟩
  have h12 := hcond (yrowToPricePoint yrow0103) (List.mem_singleton.mpr rfl)
  revert h12
  decide

theorem C3_witness :
    (process_alpha_vantage_time_series avTsEx = some avPricesEx
      ∧ List.Pairwise descByDate avPricesEx)
    ∧ ((get_yahoo_finance_data envYAsc "MSFT").1 = some yRecEx
      ∧ ∃ rows info, envYAsc.yahoo = .hist rows info
          ∧ yRecEx.prices = rows.map yrowToPricePoint) :=
  ⟨⟨by decide,
    C3_primary_sorted_secondary_iteration_order.1 avTsEx avPricesEx (by decide)⟩,
   ⟨rfl, C3_primary_sorted_secondary_iteration_order.2 envYAsc "MSFT" yRecEx rfl⟩⟩

theorem cacheAfter_append (path : String) (pre : Option Json) (l₁ l₂ : List Ev) :
    cacheAfter path pre (l₁ ++ l₂) = cacheAfter path (cacheAfter path pre l₁) l₂ := by
  induction l₁ generalizing pre with
  | nil => rfl
  | cons e rest ih =>
    cases e with
    | cacheWrite q j ok => simp [cacheAfter, ih]
    | avAttempt => simp [cacheAfter, ih]
    | avRequest f => simp [cacheAfter, ih]
    | yfAttempt => simp [cacheAfter, ih]
    | yfRequest => simp [cacheAfter, ih]

/-- C8 (amended): after a live fetch that returns a record and whose
cache-write succeeds, the cache file for the ticker holds exactly the
JSON value returned to the caller (the write is best-effort in the
code, so the claim holds only when the write does not fail). -/
theorem C8_success_write_persists (p : Provider) (env : Env) (t : String)
    (j : Json) (pre : Option Json)
    (h : cacheAbsentOrStale p env t)
    (hres : (get_stock_data p env t).result = .ok (some j))
    (hw : env.writeOk (cacheFilePath p.cache_dir t) = true) :
    cacheAfter (cacheFilePath p.cache_dir t) pre (get_stock_data p env t).trace
      = some j := by
  rw [live_of_absentOrStale p env t h] at hres ⊢
  rcases hav : get_alpha_vantage_data p env t with ⟨av1, avtr⟩
  have hprim : ∀ e ∈ avtr, e.isPrimary = true := by
    have hh := av_trace_primary p env t
    rw [hav] at hh
    exact hh
  have havnw : cacheAfter (cacheFilePath p.cache_dir t) pre avtr = pre :=
    cacheAfter_no_writes _ _ _ (fun e he => prim_not_write e (hprim e he))
  cases av1 with
  | some rec =>
    have htr : liveFetch p env t (cacheFilePath p.cache_dir t)
        = ⟨.ok (some (recordToJson rec)),
           avtr ++ [.cacheWrite (cacheFilePath p.cache_dir t) (recordToJson rec)
                      (env.writeOk (cacheFilePath p.cache_dir t))]⟩ := by
      simp [liveFetch, hav]
    rw [htr] at hres ⊢
    simp only at hres
    have hj : recordToJson rec = j := by
      injection hres with hres'
      injection hres'
    rw [cacheAfter_append, havnw, hw]
    simp [cacheAfter, hj]
  | none =>
    rcases hy : get_yahoo_finance_data env t with ⟨y1, ytr⟩
    have hytr : ytr = [.yfAttempt, .yfRequest] := by
      have hh := yf_trace_eq env t
      rw [hy] at hh
      exact hh
    subst hytr
    cases y1 with
    | some rec =>
      have htr : liveFetch p env t (cacheFilePath p.cache_dir t)
          = ⟨.ok (some (recordToJson rec)),
             avtr ++ [.yfAttempt, .yfRequest]
               ++ [.cacheWrite (cacheFilePath p.cache_dir t) (recordToJson rec)
                     (env.writeOk (cacheFilePath p.cache_dir t))]⟩ := by
        simp [liveFetch, hav, hy]
      rw [htr] at hres ⊢
      simp only at hres
      have hj : recordToJson rec = j := by
        injection hres with hres'
        injection hres'
      rw [cacheAfter_append, cacheAfter_append, havnw, hw]
      simp [cacheAfter, hj]
    | none =>
      have htr : liveFetch p env t (cacheFilePath p.cache_dir t)
          = ⟨.ok none, avtr ++ [.yfAttempt, .yfRequest]⟩ := by
        simp [liveFetch, hav, hy]
      rw [htr] at hres
      simp at hres

/-- C8 counterexample (the claim as stated): a successful fetch whose
best-effort cache write fails — the caller receives a record but no
cache file is created for the ticker. -/
theorem C8_counterexample_write_failure :
    (get_stock_data provK envWriteFail "AAPL").succeeded = true
    ∧ cacheAfter (cacheFilePath provK.cache_dir "AAPL") none
        (get_stock_data provK envWriteFail "AAPL").trace = none :=
  ⟨rfl, rfl⟩

theorem C8_witness :
    (cacheAbsentOrStale provK envStaleAv "AAPL"
      ∧ (get_stock_data provK envStaleAv "AAPL").result
          = .ok (some (recordToJson avRecStale))
      ∧ envStaleAv.writeOk (cacheFilePath provK.cache_dir "AAPL") = true)
    ∧ cacheAfter (cacheFilePath provK.cache_dir "AAPL") none
        (get_stock_data provK envStaleAv "AAPL").trace
        = some (recordToJson avRecStale) := by
  have h : cacheAbsentOrStale provK envStaleAv "AAPL" :=
    Or.inr ⟨0, rfl, by norm_num [envStaleAv, provK]⟩
  have hres : (get_stock_data provK envStaleAv "AAPL").result
      = .ok (some (recordToJson avRecStale)) := by
    rw [live_of_absentOrStale provK envStaleAv "AAPL" h]
    rfl
  exact ⟨⟨h, hres, rfl⟩,
    C8_success_write_persists provK envStaleAv "AAPL" (recordToJson avRecStale)
      none h hres rfl⟩

theorem get_stock_data_trace_cases (p : Provider) (env : Env) (t : String) :
    (get_stock_data p env t).trace = []
    ∨ get_stock_data p env t = liveFetch p env t (cacheFilePath p.cache_dir t) := by
  unfold get_stock_data
  cases hpe : env.pathExists (cacheFilePath p.cache_dir t) with
  | false =>
    right
    simp [hpe]
  | true =>
    cases hm : env.mtime (cacheFilePath p.cache_dir t) with
    | error e =>
      left
      simp [hpe, hm]
    | ok m =>
      by_cases hf : env.now - m < p.cache_duration
      · cases hr : env.readJson (cacheFilePath p.cache_dir t) with
        | ok j =>
          left
          simp [hpe, hm, hf, hr]
        | error e =>
          right
          simp [hpe, hm, hf, hr]
      · right
        simp [hpe, hm, hf]

theorem liveFetch_write_events (p : Provider) (env : Env) (t cf : String) :
    ∀ e ∈ (liveFetch p env t cf).trace, e.isWrite = true →
      ∃ j ok, e = .cacheWrite cf j ok := by
  intro e he hw
  rcases hav : get_alpha_vantage_data p env t with ⟨av1, avtr⟩
  have hprim : ∀ x ∈ avtr, x.isPrimary = true := by
    have hh := av_trace_primary p env t
    rw [hav] at hh
    exact hh
  cases av1 with
  | some rec =>
    have htr : (liveFetch p env t cf).trace
        = avtr ++ [.cacheWrite cf (recordToJson rec) (env.writeOk cf)] := by
      simp [liveFetch, hav]
    rw [htr] at he
    rcases List.mem_append.mp he with hx | hx
    · rw [prim_not_write e (hprim e hx)] at hw
      exact absurd hw (by simp)
    · rcases List.mem_singleton.mp hx with h1
      exact ⟨recordToJson rec, env.writeOk cf, h1⟩
  | none =>
    rcases hy : get_yahoo_finance_data env t with ⟨y1, ytr⟩
    have hytr : ytr = [.yfAttempt, .yfRequest] := by
      have hh := yf_trace_eq env t
      rw [hy] at hh
      exact hh
    subst hytr
    cases y1 with
    | some rec =>
      have htr : (liveFetch p env t cf).trace
          = avtr ++ [.yfAttempt, .yfRequest]
            ++ [.cacheWrite cf (recordToJson rec) (env.writeOk cf)] := by
        simp [liveFetch, hav, hy]
      rw [htr] at he
      rcases List.mem_append.mp he with hx | hx
      · rcases List.mem_append.mp hx with hx' | hx'
        · rw [prim_not_write e (hprim e hx')] at hw
          exact absurd hw (by simp)
        · simp only [List.mem_cons, List.mem_singleton] at hx'
          rcases hx' with h1 | h1 | h1
          · subst h1
            exact absurd hw (by simp [Ev.isWrite])
          · subst h1
            exact absurd hw (by simp [Ev.isWrite])
          · exact absurd h1 (List.not_mem_nil e)
      · rcases List.mem_singleton.mp hx with h1
        exact ⟨recordToJson rec, env.writeOk cf, h1⟩
    | none =>
      have htr : (liveFetch p env t cf).trace
          = avtr ++ [.yfAttempt, .yfRequest] := by
        simp [liveFetch, hav, hy]
      rw [htr] at he
      rcases List.mem_append.mp he with hx | hx
      · rw [prim_not_write e (hprim e hx)] at hw
        exact absurd hw (by simp)
      · simp only [List.mem_cons, List.mem_singleton] at hx
        rcases hx with h1 | h1 | h1
        · subst h1
          exact absurd hw (by simp [Ev.isWrite])
        · subst h1
          exact absurd hw (by simp [Ev.isWrite])
        · exact absurd h1 (List.not_mem_nil e)

/-- C9 (amended): the cache path is a deterministic function of the
case-folded ticker — tickers with equal case-foldings yield the same
path, and every cache-write event of a fetch targets exactly that
path — but the code applies no filesystem sanitization, so the derived
file name is safe only when the case-folded ticker itself contains no
unsafe character. -/
theorem C9_cache_path_case_folded_unsanitized :
    (∀ d t₁ t₂ : String, strLower t₁ = strLower t₂ →
        cacheFilePath d t₁ = cacheFilePath d t₂)
    ∧ (∀ (p : Provider) (env : Env) (t : String),
        ∀ e ∈ (get_stock_data p env t).trace, e.isWrite = true →
          ∃ j ok, e = .cacheWrite (cacheFilePath p.cache_dir t) j ok)
    ∧ (∀ t : String, (strLower t).toList.all fsSafeChar = true →
        fsSafeName (cacheFileName t) = true) := by
  refine ⟨?_, ?_, ?_⟩
  · intro d t₁ t₂ h
    unfold cacheFilePath cacheFileName
    rw [h]
  · intro p env t e he hw
    rcases get_stock_data_trace_cases p env t with hc | hc
    · rw [hc] at he
      exact absurd he (List.not_mem_nil e)
    · rw [hc] at he
      exact liveFetch_write_events p env t _ e he hw
  · intro t h
    unfold fsSafeName cacheFileName
    have hdata : (strLower t ++ "_data.json").toList
        = (strLower t).toList ++ "_data.json".toList := by
      simp [String.toList, String.data_append]
    rw [hdata, List.all_append, h]
    have hsuf : ("_data.json".toList.all fsSafeChar) = true := by decide
    rw [hsuf]
    have hne : ((strLower t).toList ++ "_data.json".toList).isEmpty = false := by
      cases hl : (strLower t).toList with
      | nil => decide
      | cons c cs => rfl
    rw [hne]
    rfl

/-- C9 counterexample (the claim as stated): no sanitization happens —
the ticker "A/B" derives the cache file name "a/b_data.json", which
contains a path separator and is not safe as a filesystem name. -/
theorem C9_counterexample_unsafe_name :
    cacheFileName "A/B" = "a/b_data.json"
    ∧ fsSafeName (cacheFileName "A/B") = false := by
  exact ⟨by decide, by decide⟩

theorem C9_witness :
    (strLower "AAPL" = strLower "aapl"
      ∧ cacheFilePath "./data/cache" "AAPL" = cacheFilePath "./data/cache" "aapl")
    ∧ ((strLower "msft").toList.all fsSafeChar = true
      ∧ fsSafeName (cacheFileName "msft") = true) :=
  ⟨⟨by decide,
    C9_cache_path_case_folded_unsanitized.1 "./data/cache" "AAPL" "aapl" (by decide)⟩,
   ⟨by decide, C9_cache_path_case_folded_unsanitized.2.2 "msft" (by decide)⟩⟩

/-- C10: a time-series entry missing any of the OHLCV fields still
yields a PricePoint, with 0 substituted for the missing field — an
entry with every field absent normalizes to all-zero values, and an
entry lacking a field is indistinguishable from the same entry carrying
that field with the value 0. -/
theorem C10_missing_fields_default_zero :
    (∀ date : String, processEntry date (.obj []) = some ⟨date, 0, 0, 0, 0, 0⟩)
    ∧ (∀ (date : String) (kvs : List (String × Json)) (k : String),
        k ∈ ["1. open", "2. high", "3. low", "4. close", "5. volume"] →
        List.lookup k kvs = none →
        processEntry date (.obj kvs)
          = processEntry date (.obj ((k, .num 0) :: kvs))) := by
  constructor
  · intro date
    simp [processEntry, pyFloat, pyInt, List.lookup]
    decide
  · intro date kvs k hk hlk
    simp only [List.mem_cons, List.mem_singleton] at hk
    rcases hk with hk | hk | hk | hk | hk | hk
    · subst hk
      simp [processEntry, List.lookup, hlk]
    · subst hk
      simp [processEntry, List.lookup, hlk]
    · subst hk
      simp [processEntry, List.lookup, hlk]
    · subst hk
      simp [processEntry, List.lookup, hlk]
    · subst hk
      simp [processEntry, List.lookup, hlk]
    · exact absurd hk (List.not_mem_nil k)

theorem C10_witness :
    (("1. open" : String) ∈ ["1. open", "2. high", "3. low", "4. close", "5. volume"]
      ∧ List.lookup "1. open" [("2. high", Json.str "3")] = none)
    ∧ processEntry "2024-01-02" (.obj [("2. high", .str "3")])
        = processEntry "2024-01-02"
            (.obj [("1. open", .num 0), ("2. high", .str "3")]) :=
  ⟨⟨by simp, rfl⟩,
   C10_missing_fields_default_zero.2 "2024-01-02" [("2. high", .str "3")]
     "1. open" (by simp) rfl⟩
